import Mathlib

/-!
Verification of the OCR pipeline in `src/api/ocr.py`.

Strings are modelled as `List Char`; the engine's floating-point confidence
values are modelled as exact rationals (`ℚ`).  Python exceptions are modelled
with `Except`.  Each definition below mirrors one piece of the Python source;
line numbers in the doc comments refer to `src/api/ocr.py`.
-/

/-- The whitespace characters recognized by Python's `str.split()` /
`str.strip()` on ASCII text: space, tab, newline, carriage return,
vertical tab, form feed. -/
def isPySpace (c : Char) : Bool :=
  c == ' ' || c == '\t' || c == '\n' || c == '\r' || c == '\x0b' || c == '\x0c'

/-- The character class `[a-zA-Z]` of the regex on line 197. -/
def isAsciiLetter (c : Char) : Bool :=
  (decide ('a' ≤ c) && decide (c ≤ 'z')) || (decide ('A' ≤ c) && decide (c ≤ 'Z'))

/-- Python `text.split()` (no separator argument): split on runs of
whitespace, discarding empty pieces.  `cur` is the word currently being
accumulated, in reverse. -/
def pywordsAux : List Char → List Char → List (List Char)
  | cur, [] => if cur.isEmpty then [] else [cur.reverse]
  | cur, c :: rest =>
    if isPySpace c then
      if cur.isEmpty then pywordsAux [] rest else cur.reverse :: pywordsAux [] rest
    else pywordsAux (c :: cur) rest

/-- Python `text.split()`. -/
def pywords (s : List Char) : List (List Char) := pywordsAux [] s

/-- Lines 183 and 204: `" ".join(text.split())`. -/
def collapseWS (s : List Char) : List Char := List.intercalate [' '] (pywords s)

/-- Python `text.strip()`: drop leading and trailing whitespace. -/
def strip (s : List Char) : List Char :=
  (((s.dropWhile isPySpace).reverse).dropWhile isPySpace).reverse

/-- Line 201, first call: `text.replace("-\n", "")` (left-to-right,
non-overlapping, no rescanning of emitted output). -/
def removeHyphenNewline : List Char → List Char
  | [] => []
  | [c] => [c]
  | c :: d :: rest =>
    if c == '-' && d == '\n' then removeHyphenNewline rest
    else c :: removeHyphenNewline (d :: rest)

/-- Line 201, second call: `text.replace("\n", " ")`. -/
def newlineToSpace (s : List Char) : List Char :=
  s.map (fun c => if c == '\n' then ' ' else c)

/-- Does the option hold a letter?  (The regex lookbehind at the start of the
scan, where there is no previous character, fails.) -/
def prevLetter : Option Char → Bool
  | none => false
  | some c => isAsciiLetter c

/-- Is the first character of the remaining input a letter?  (The regex
lookahead at the end of the string fails.) -/
def headLetter : List Char → Bool
  | [] => false
  | c :: _ => isAsciiLetter c

/-- Line 198: `re.sub(f"(?<=[a-zA-Z]){old}(?=[a-zA-Z])", new, text)`.
The scanner walks the input left to right; both lookarounds inspect the
original subject string, so `prev` is the original previous character. -/
def substAux (old new : Char) : Option Char → List Char → List Char
  | _, [] => []
  | prev, c :: rest =>
    (if c == old && prevLetter prev && headLetter rest then new else c)
      :: substAux old new (some c) rest

/-- One `re.sub` pass over a whole string. -/
def substitute (old new : Char) (s : List Char) : List Char :=
  substAux old new none s

/-- Lines 185-198: the `replacements` loop, which applies the `("0", "O")`
pass and then the `("1", "l")` pass. -/
def applyReplacements (s : List Char) : List Char :=
  substitute '1' 'l' (substitute '0' 'O' s)

/-- Lines 177-206: `OCRHandler._clean_text`. -/
def clean_text (s : List Char) : List Char :=
  if s.isEmpty then []
  else
    let t1 := collapseWS s
    let t2 := applyReplacements t1
    let t3 := newlineToSpace (removeHyphenNewline t2)
    let t4 := collapseWS t3
    strip t4

/-- `_clean_text` with the line-break repair of lines 200-201 deleted
(used to state claim C10). -/
def clean_text_norepair (s : List Char) : List Char :=
  if s.isEmpty then []
  else
    let t1 := collapseWS s
    let t2 := applyReplacements t1
    let t4 := collapseWS t2
    strip t4

example : clean_text "  a0b   x ".data = "aOb x".data := by decide
example : applyReplacements " 0 ".data = " 0 ".data := by decide
example : applyReplacements "10".data = "10".data := by decide
example : applyReplacements "a0b".data = "aOb".data := by decide
example : collapseWS " a \t b ".data = "a b".data := by decide
example : strip "  ab ".data = "ab".data := by decide

/-! ### Structure of `pywords` / `collapseWS` -/

/-- Every word produced by `str.split()` is non-empty and whitespace-free. -/
def goodWords (ws : List (List Char)) : Prop :=
  ∀ w ∈ ws, w ≠ [] ∧ ∀ c ∈ w, isPySpace c = false

lemma pywordsAux_good :
    ∀ (s cur : List Char), (∀ c ∈ cur, isPySpace c = false) →
      goodWords (pywordsAux cur s) := by
  intro s
  induction s with
  | nil =>
    intro cur hcur
    by_cases h : cur.isEmpty
    · simp [pywordsAux, h, goodWords]
    · simp only [pywordsAux, if_neg h, goodWords, List.mem_singleton]
      intro w hw
      subst hw
      refine ⟨by simpa [List.isEmpty_iff] using h, ?_⟩
      intro c hc
      exact hcur c (List.mem_reverse.mp hc)
  | cons a t ih =>
    intro cur hcur
    by_cases ha : isPySpace a
    · by_cases h : cur.isEmpty
      · simpa [pywordsAux, ha, h] using ih [] (by simp)
      · simp only [pywordsAux, ha, if_true, if_neg h]
        intro w hw
        rcases List.mem_cons.mp hw with hw | hw
        · subst hw
          refine ⟨by simpa [List.isEmpty_iff] using h, ?_⟩
          intro c hc
          exact hcur c (List.mem_reverse.mp hc)
        · exact ih [] (by simp) w hw
    · simp only [pywordsAux, if_neg ha]
      refine ih (a :: cur) ?_
      intro c hc
      rcases List.mem_cons.mp hc with hc | hc
      · subst hc; simpa using ha
      · exact hcur c hc

lemma pywords_good (s : List Char) : goodWords (pywords s) :=
  pywordsAux_good s [] (by simp)

lemma pywordsAux_append_word (w : List Char) (hw : ∀ c ∈ w, isPySpace c = false) :
    ∀ (cur rest : List Char),
      pywordsAux cur (w ++ rest) = pywordsAux (w.reverse ++ cur) rest := by
  induction w with
  | nil => intro cur rest; simp
  | cons a t ih =>
    intro cur rest
    have ha : isPySpace a = false := hw a (by simp)
    have hne : ¬(isPySpace a = true) := by simp [ha]
    simp only [List.cons_append, pywordsAux, if_neg hne, List.append_eq]
    rw [ih (fun c hc => hw c (by simp [hc])) (a :: cur) rest]
    simp

lemma intercalate_cons_cons (w x : List Char) (t : List (List Char)) :
    List.intercalate [' '] (w :: x :: t) = w ++ ' ' :: List.intercalate [' '] (x :: t) := by
  simp [List.intercalate, List.intersperse]

lemma pywords_intercalate :
    ∀ (ws : List (List Char)), goodWords ws →
      pywords (List.intercalate [' '] ws) = ws := by
  intro ws
  induction ws with
  | nil => intro _; simp [pywords, pywordsAux, List.intercalate]
  | cons w t ih =>
    intro hg
    obtain ⟨hwne, hwns⟩ := hg w (by simp)
    cases t with
    | nil =>
      have : List.intercalate [' '] [w] = w := by simp [List.intercalate]
      rw [this]
      unfold pywords
      rw [show w = w ++ ([] : List Char) by simp, pywordsAux_append_word w hwns [] []]
      simp [pywordsAux, hwne]
    | cons x t' =>
      rw [intercalate_cons_cons]
      unfold pywords
      rw [show w ++ ' ' :: List.intercalate [' '] (x :: t')
            = w ++ (' ' :: List.intercalate [' '] (x :: t')) by simp,
        pywordsAux_append_word w hwns []]
      have hsp : isPySpace ' ' = true := by decide
      have hrne : ¬((w.reverse ++ ([] : List Char)).isEmpty = true) := by
        simp [hwne]
      simp only [pywordsAux, hsp, if_true, if_neg hrne, List.append_nil,
        List.reverse_reverse]
      have ht := ih (fun v hv => hg v (by simp [hv]))
      unfold pywords at ht
      rw [ht, if_neg (by simp [hwne])]

lemma collapseWS_intercalate (ws : List (List Char)) (h : goodWords ws) :
    collapseWS (List.intercalate [' '] ws) = List.intercalate [' '] ws := by
  unfold collapseWS
  rw [pywords_intercalate ws h]

lemma collapseWS_idem (s : List Char) : collapseWS (collapseWS s) = collapseWS s :=
  collapseWS_intercalate (pywords s) (pywords_good s)

lemma mem_intercalate_space {c : Char} :
    ∀ (ws : List (List Char)), c ∈ List.intercalate [' '] ws →
      c = ' ' ∨ ∃ w ∈ ws, c ∈ w := by
  intro ws
  induction ws with
  | nil => intro h; simp [List.intercalate] at h
  | cons w t ih =>
    cases t with
    | nil =>
      intro h
      have : List.intercalate [' '] [w] = w := by simp [List.intercalate]
      rw [this] at h
      exact Or.inr ⟨w, by simp, h⟩
    | cons x t' =>
      intro h
      rw [intercalate_cons_cons] at h
      rcases List.mem_append.mp h with h | h
      · exact Or.inr ⟨w, by simp, h⟩
      · rcases List.mem_cons.mp h with h | h
        · exact Or.inl h
        · rcases ih h with h | ⟨v, hv, hcv⟩
          · exact Or.inl h
          · exact Or.inr ⟨v, by simp [hv], hcv⟩

lemma mem_collapseWS_space {c : Char} (s : List Char)
    (hmem : c ∈ collapseWS s) (hsp : isPySpace c = true) : c = ' ' := by
  rcases mem_intercalate_space (pywords s) hmem with h | ⟨w, hw, hcw⟩
  · exact h
  · have := (pywords_good s w hw).2 c hcw
    rw [this] at hsp
    exact absurd hsp (by simp)

/-! ### `strip` is trivial on collapsed text -/

lemma dropWhile_eq_self_of_head (p : Char → Bool) (t : List Char)
    (h : ∀ c, t.head? = some c → p c = false) : t.dropWhile p = t := by
  cases t with
  | nil => rfl
  | cons a l =>
    have := h a rfl
    simp [List.dropWhile_cons, this]

lemma strip_of_ends (t : List Char)
    (h1 : ∀ c, t.head? = some c → isPySpace c = false)
    (h2 : ∀ c, t.getLast? = some c → isPySpace c = false) : strip t = t := by
  unfold strip
  rw [dropWhile_eq_self_of_head _ _ h1]
  rw [dropWhile_eq_self_of_head _ _ (fun c hc => h2 c (by rwa [List.head?_reverse] at hc))]
  exact List.reverse_reverse t

lemma intercalate_head (ws : List (List Char)) (h : goodWords ws) :
    ∀ c, (List.intercalate [' '] ws).head? = some c → isPySpace c = false := by
  intro c hc
  cases ws with
  | nil => simp [List.intercalate] at hc
  | cons w t =>
    obtain ⟨hwne, hwns⟩ := h w (by simp)
    obtain ⟨a, w', rfl⟩ := List.exists_cons_of_ne_nil hwne
    have ha : isPySpace a = false := hwns a (by simp)
    cases t with
    | nil =>
      rw [show List.intercalate [' '] [a :: w'] = a :: w' by simp [List.intercalate]] at hc
      simp at hc; rwa [← hc]
    | cons x t' =>
      rw [intercalate_cons_cons] at hc
      simp at hc; rwa [← hc]

lemma intercalate_ne_nil (x : List Char) (t : List (List Char)) (hx : x ≠ []) :
    List.intercalate [' '] (x :: t) ≠ [] := by
  cases t with
  | nil => simpa [List.intercalate] using hx
  | cons y t' =>
    rw [intercalate_cons_cons]
    obtain ⟨a, x', rfl⟩ := List.exists_cons_of_ne_nil hx
    simp

lemma intercalate_getLast :
    ∀ (ws : List (List Char)), goodWords ws →
      ∀ c, (List.intercalate [' '] ws).getLast? = some c → isPySpace c = false := by
  intro ws
  induction ws with
  | nil => intro _ c hc; simp [List.intercalate] at hc
  | cons w t ih =>
    intro hg c hc
    obtain ⟨hwne, hwns⟩ := hg w (by simp)
    cases t with
    | nil =>
      rw [show List.intercalate [' '] [w] = w by simp [List.intercalate]] at hc
      exact hwns c (List.mem_of_mem_getLast? (by rw [hc]; exact Option.mem_some_self c))
    | cons x t' =>
      rw [intercalate_cons_cons] at hc
      have hne : (' ' :: List.intercalate [' '] (x :: t')) ≠ [] := by simp
      rw [List.getLast?_append_of_ne_nil _ hne] at hc
      have hxne : x ≠ [] := (hg x (by simp)).1
      have hicne : List.intercalate [' '] (x :: t') ≠ [] := intercalate_ne_nil x t' hxne
      obtain ⟨b, ic', hic⟩ := List.exists_cons_of_ne_nil hicne
      rw [hic] at hc
      rw [show (' ' :: b :: ic').getLast? = (b :: ic').getLast? from
        List.getLast?_append_of_ne_nil [' '] (by simp)] at hc
      rw [← hic] at hc
      exact ih (fun v hv => hg v (by simp [hv])) c hc

lemma strip_collapseWS (x : List Char) : strip (collapseWS x) = collapseWS x :=
  strip_of_ends _ (intercalate_head _ (pywords_good x))
    (intercalate_getLast _ (pywords_good x))

/-! ### The line-break repair never fires after whitespace collapsing -/

lemma length_substAux (old new : Char) :
    ∀ (l : List Char) (prev : Option Char), (substAux old new prev l).length = l.length := by
  intro l
  induction l with
  | nil => intro prev; rfl
  | cons c rest ih => intro prev; simp [substAux, ih]

lemma mem_substAux {c : Char} (old new : Char) :
    ∀ (l : List Char) (prev : Option Char), c ∈ substAux old new prev l →
      c ∈ l ∨ c = new := by
  intro l
  induction l with
  | nil => intro prev h; simp [substAux] at h
  | cons a rest ih =>
    intro prev h
    rcases List.mem_cons.mp h with h | h
    · by_cases hcond : (a == old && prevLetter prev && headLetter rest) = true
      · rw [hcond] at h; simp at h; exact Or.inr h
      · rw [Bool.not_eq_true] at hcond
        rw [hcond] at h; simp at h; exact Or.inl (by simp [h])
    · rcases ih (some a) h with h | h
      · exact Or.inl (by simp [h])
      · exact Or.inr h

lemma mem_substitute {c : Char} (old new : Char) (s : List Char)
    (h : c ∈ substitute old new s) : c ∈ s ∨ c = new :=
  mem_substAux old new s none h

lemma no_newline_applyReplacements_collapseWS (s : List Char) :
    '\n' ∉ applyReplacements (collapseWS s) := by
  intro hmem
  rcases mem_substitute '1' 'l' _ hmem with h | h
  · rcases mem_substitute '0' 'O' _ h with h | h
    · have := mem_collapseWS_space s h (by decide)
      exact absurd this (by decide)
    · exact absurd h (by decide)
  · exact absurd h (by decide)

lemma removeHyphenNewline_id : ∀ (l : List Char), '\n' ∉ l → removeHyphenNewline l = l
  | [], _ => rfl
  | [c], _ => rfl
  | c :: d :: rest, h => by
    have hd : d ≠ '\n' := fun e => h (by simp [e])
    have hcond : (c == '-' && d == '\n') = false := by
      simp [hd]
    rw [removeHyphenNewline, hcond]
    simp only [Bool.false_eq_true, if_false, List.cons.injEq, true_and]
    exact removeHyphenNewline_id (d :: rest) (fun hm => h (List.mem_cons_of_mem _ hm))

lemma newlineToSpace_id (l : List Char) (h : '\n' ∉ l) : newlineToSpace l = l := by
  induction l with
  | nil => rfl
  | cons c rest ih =>
    have hc : c ≠ '\n' := fun e => h (by simp [e])
    have : (c == '\n') = false := by simp [hc]
    simp only [newlineToSpace, List.map_cons, this, Bool.false_eq_true, if_false]
    rw [List.cons.injEq]
    exact ⟨rfl, ih (fun hm => h (List.mem_cons_of_mem _ hm))⟩

/-! ### Normal form of `_clean_text` -/

lemma headLetter_append_space (w' rest : List Char) :
    headLetter (w' ++ ' ' :: rest) = headLetter w' := by
  cases w' with
  | nil => simp [headLetter]; decide
  | cons a l => rfl

lemma substAux_prev_congr (old new : Char) (p q : Option Char)
    (h : prevLetter p = prevLetter q) :
    ∀ l, substAux old new p l = substAux old new q l := by
  intro l
  cases l with
  | nil => rfl
  | cons c rest => simp [substAux, h]

lemma substAux_append_space (old new : Char) (hne : (' ' == old) = false) :
    ∀ (w rest : List Char) (prev : Option Char),
      substAux old new prev (w ++ ' ' :: rest)
        = substAux old new prev w ++ ' ' :: substAux old new none rest := by
  intro w
  induction w with
  | nil =>
    intro rest prev
    simp only [List.nil_append, substAux, hne, Bool.false_and, Bool.and_false,
      Bool.false_eq_true, if_false]
    rw [substAux_prev_congr old new (some ' ') none (by decide)]
  | cons c w' ih =>
    intro rest prev
    simp only [List.cons_append, substAux, List.append_eq, headLetter_append_space]
    rw [ih rest (some c)]

lemma substitute_intercalate (old new : Char) (hne : (' ' == old) = false) :
    ∀ (ws : List (List Char)),
      substitute old new (List.intercalate [' '] ws)
        = List.intercalate [' '] (ws.map (substitute old new)) := by
  intro ws
  induction ws with
  | nil => simp [List.intercalate, substitute, substAux]
  | cons w t ih =>
    cases t with
    | nil =>
      simp only [List.map_cons, List.map_nil]
      rw [show List.intercalate [' '] [w] = w by simp [List.intercalate],
        show List.intercalate [' '] [substitute old new w] = substitute old new w by
          simp [List.intercalate]]
    | cons x t' =>
      rw [intercalate_cons_cons]
      unfold substitute
      rw [show substAux old new none (w ++ ' ' :: List.intercalate [' '] (x :: t'))
            = substAux old new none w ++ ' ' :: substAux old new none (List.intercalate [' '] (x :: t'))
          from substAux_append_space old new hne w _ none]
      have := ih
      unfold substitute at this
      rw [this]
      simp only [List.map_cons]
      rw [intercalate_cons_cons]

lemma goodWords_map_substitute (old new : Char) (hnew : isPySpace new = false)
    (ws : List (List Char)) (h : goodWords ws) :
    goodWords (ws.map (substitute old new)) := by
  intro w hw
  rcases List.mem_map.mp hw with ⟨v, hv, rfl⟩
  obtain ⟨hvne, hvns⟩ := h v hv
  constructor
  · intro he
    have : (substitute old new v).length = v.length := length_substAux old new v none
    rw [he] at this
    exact hvne (List.length_eq_zero.mp this.symm)
  · intro c hc
    rcases mem_substitute old new v hc with h | h
    · exact hvns c h
    · rw [h]; exact hnew

lemma collapseWS_applyReplacements_collapseWS (x : List Char) :
    collapseWS (applyReplacements (collapseWS x)) = applyReplacements (collapseWS x) := by
  have h0 : collapseWS x = List.intercalate [' '] (pywords x) := rfl
  have g0 : goodWords (pywords x) := pywords_good x
  have e1 : substitute '0' 'O' (collapseWS x)
      = List.intercalate [' '] ((pywords x).map (substitute '0' 'O')) := by
    rw [h0]; exact substitute_intercalate '0' 'O' (by decide) (pywords x)
  have g1 : goodWords ((pywords x).map (substitute '0' 'O')) :=
    goodWords_map_substitute '0' 'O' (by decide) _ g0
  have e2 : applyReplacements (collapseWS x)
      = List.intercalate [' ']
          (((pywords x).map (substitute '0' 'O')).map (substitute '1' 'l')) := by
    unfold applyReplacements
    rw [e1]
    exact substitute_intercalate '1' 'l' (by decide) _
  have g2 : goodWords (((pywords x).map (substitute '0' 'O')).map (substitute '1' 'l')) :=
    goodWords_map_substitute '1' 'l' (by decide) _ g1
  rw [e2]
  exact collapseWS_intercalate _ g2

/-- Normal form: `_clean_text` is exactly the two regex passes applied to the
collapsed input. -/
lemma clean_text_eq (s : List Char) :
    clean_text s = applyReplacements (collapseWS s) := by
  unfold clean_text
  by_cases hs : s.isEmpty
  · rw [if_pos hs]
    have : s = [] := List.isEmpty_iff.mp hs
    subst this
    rfl
  · rw [if_neg hs]
    show strip (collapseWS (newlineToSpace (removeHyphenNewline
        (applyReplacements (collapseWS s))))) = applyReplacements (collapseWS s)
    have hnl := no_newline_applyReplacements_collapseWS s
    rw [removeHyphenNewline_id _ hnl, newlineToSpace_id _ hnl,
      strip_collapseWS (applyReplacements (collapseWS s))]
    exact collapseWS_applyReplacements_collapseWS s

lemma clean_text_norepair_eq (s : List Char) :
    clean_text_norepair s = applyReplacements (collapseWS s) := by
  unfold clean_text_norepair
  by_cases hs : s.isEmpty
  · rw [if_pos hs]
    have : s = [] := List.isEmpty_iff.mp hs
    subst this
    rfl
  · rw [if_neg hs]
    show strip (collapseWS (applyReplacements (collapseWS s)))
        = applyReplacements (collapseWS s)
    rw [strip_collapseWS (applyReplacements (collapseWS s))]
    exact collapseWS_applyReplacements_collapseWS s

/-! ### Positional characterization of the regex passes -/

/-- Is the character at index `i` (if any) an ASCII letter? -/
def lA (s : List Char) (i : Nat) : Bool :=
  match s[i]? with
  | some c => isAsciiLetter c
  | none => false

/-- The regex lookbehind `(?<=[a-zA-Z])` at index `i`. -/
def behind (s : List Char) : Nat → Bool
  | 0 => false
  | j + 1 => lA s j

/-- Index `i` is strictly surrounded by ASCII letters. -/
def surrounded (s : List Char) (i : Nat) : Bool := behind s i && lA s (i + 1)

lemma lA_of_getElem? {s : List Char} {i : Nat} {c : Char} (h : s[i]? = some c) :
    lA s i = isAsciiLetter c := by simp [lA, h]

lemma lA_cons_succ (c : Char) (l : List Char) (j : Nat) : lA (c :: l) (j + 1) = lA l j := by
  simp [lA]

lemma lA_cons_zero (c : Char) (l : List Char) : lA (c :: l) 0 = isAsciiLetter c := by
  simp [lA]

lemma surrounded_zero (s : List Char) : surrounded s 0 = false := by
  simp [surrounded, behind]

lemma surrounded_succ (s : List Char) (j : Nat) :
    surrounded s (j + 1) = (lA s j && lA s (j + 2)) := rfl

lemma substAux_getElem? (old new : Char) :
    ∀ (l : List Char) (prev : Option Char) (i : Nat),
      (substAux old new prev l)[i]? =
        (l[i]?).map (fun c =>
          if c == old && (match i with | 0 => prevLetter prev | Nat.succ j => lA l j)
              && lA l (i + 1)
          then new else c) := by
  intro l
  induction l with
  | nil => intro prev i; simp [substAux]
  | cons a rest ih =>
    intro prev i
    cases i with
    | zero =>
      simp only [substAux, List.getElem?_cons_zero, Option.map_some']
      have h1 : lA (a :: rest) 1 = headLetter rest := by
        cases rest <;> simp [lA, headLetter]
      rw [h1]
    | succ j =>
      simp only [substAux, List.getElem?_cons_succ]
      rw [ih (some a) j]
      cases h : rest[j]? with
      | none => simp
      | some d =>
        simp only [Option.map_some', Option.some.injEq]
        cases j with
        | zero => simp [lA_cons_zero, lA_cons_succ, prevLetter]
        | succ k => simp [lA_cons_succ]

lemma substitute_getElem? (old new : Char) (s : List Char) (i : Nat) :
    (substitute old new s)[i]? =
      (s[i]?).map (fun c => if c == old && surrounded s i then new else c) := by
  unfold substitute
  rw [substAux_getElem?]
  cases h : s[i]? with
  | none => simp
  | some c =>
    simp only [Option.map_some', Option.some.injEq]
    cases i with
    | zero => simp [surrounded_zero, prevLetter]
    | succ j => rw [surrounded_succ]; simp [Bool.and_assoc]

lemma substitute_getElem?_some {old new c : Char} {s : List Char} {i : Nat}
    (h : (substitute old new s)[i]? = some c) :
    ∃ d, s[i]? = some d ∧ (if d == old && surrounded s i then new else d) = c := by
  rw [substitute_getElem? old new s i] at h
  cases hd : s[i]? with
  | none => rw [hd] at h; simp at h
  | some d => rw [hd] at h; exact ⟨d, rfl, by simpa using h⟩

lemma lA_substitute (old new : Char) (hnew : isAsciiLetter new = true)
    (hold : isAsciiLetter old = false) (s : List Char) (i : Nat) :
    lA (substitute old new s) i
      = (lA s i || ((s[i]? == some old) && surrounded s i)) := by
  cases h : s[i]? with
  | none =>
    have hsub : (substitute old new s)[i]? = none := by
      rw [substitute_getElem?, h]; rfl
    simp [lA, hsub, h]
  | some c =>
    have hsub : (substitute old new s)[i]?
        = some (if c == old && surrounded s i then new else c) := by
      rw [substitute_getElem?, h]; rfl
    rw [lA_of_getElem? hsub, lA_of_getElem? h]
    by_cases hc : (c == old && surrounded s i) = true
    · rw [if_pos hc]
      obtain ⟨hceq, hsur⟩ : (c == old) = true ∧ surrounded s i = true := by simpa using hc
      have hc' : c = old := by simpa using hceq
      subst hc'
      simp [hnew, hold, hsur]
    · rw [if_neg hc]
      have hb : ((some c == some old) && surrounded s i) = false := by
        rw [show (some c == some old) = (c == old) from rfl]
        rwa [Bool.not_eq_true] at hc
      rw [hb, Bool.or_false]

lemma lA_substitute_left (old new : Char) (hnew : isAsciiLetter new = true)
    (hold : isAsciiLetter old = false) (s : List Char) (j : Nat)
    (h : lA s (j + 1) = false) : lA (substitute old new s) j = lA s j := by
  rw [lA_substitute old new hnew hold s j]
  have hs : surrounded s j = false := by
    cases j with
    | zero => exact surrounded_zero s
    | succ k => rw [surrounded_succ, h]; simp
  rw [hs]
  simp

lemma lA_substitute_right (old new : Char) (hnew : isAsciiLetter new = true)
    (hold : isAsciiLetter old = false) (s : List Char) (j : Nat)
    (h : lA s j = false) : lA (substitute old new s) (j + 1) = lA s (j + 1) := by
  rw [lA_substitute old new hnew hold s (j + 1), surrounded_succ, h]
  simp

lemma surrounded_substitute (old new : Char) (hnew : isAsciiLetter new = true)
    (hold : isAsciiLetter old = false) (s : List Char) (i : Nat)
    (h : lA s i = false) :
    surrounded (substitute old new s) i = surrounded s i := by
  unfold surrounded
  rw [lA_substitute_right old new hnew hold s i h]
  cases i with
  | zero => rfl
  | succ j =>
    simp only [behind]
    rw [lA_substitute_left old new hnew hold s j h]

/-- The two sequential regex passes act like one simultaneous pass over the
original string: lookarounds are decided by the original characters. -/
lemma applyReplacements_getElem? (s : List Char) (i : Nat) :
    (applyReplacements s)[i]? = (s[i]?).map (fun c =>
      if c == '0' && surrounded s i then 'O'
      else if c == '1' && surrounded s i then 'l' else c) := by
  unfold applyReplacements
  rw [substitute_getElem?]
  cases h : s[i]? with
  | none =>
    have h0 : (substitute '0' 'O' s)[i]? = none := by
      rw [substitute_getElem?, h]; rfl
    rw [h0]; rfl
  | some c =>
    have h0 : (substitute '0' 'O' s)[i]?
        = some (if c == '0' && surrounded s i then 'O' else c) := by
      rw [substitute_getElem?, h]; rfl
    rw [h0]
    simp only [Option.map_some', Option.some.injEq]
    by_cases hc0 : c = '0'
    · subst hc0
      cases hS : surrounded s i with
      | true => simp [hS]
      | false => simp [hS]
    · by_cases hc1 : c = '1'
      · subst hc1
        have hmid : lA s i = false := by rw [lA_of_getElem? h]; decide
        have hsur := surrounded_substitute '0' 'O' (by decide) (by decide) s i hmid
        have e0 : ('1' == '0') = false := by decide
        simp only [e0, Bool.false_and, Bool.false_eq_true, if_false, hsur]
      · have e0 : (c == '0') = false := by simp [hc0]
        have e1 : (c == '1') = false := by simp [hc1]
        simp [e0, e1]

/-- A character produced by the first pass is never the target of the
second pass at a surrounded position, and vice versa: re-running either pass
on the loop's output changes nothing. -/
lemma substitute0_applyReplacements (w : List Char) :
    substitute '0' 'O' (applyReplacements w) = applyReplacements w := by
  apply List.ext_getElem?
  intro i
  rw [substitute_getElem?]
  cases h : (applyReplacements w)[i]? with
  | none => rfl
  | some c =>
    simp only [Option.map_some', Option.some.injEq]
    by_cases hcond : (c == '0' && surrounded (applyReplacements w) i) = true
    · exfalso
      obtain ⟨hceq, hsur⟩ : (c == '0') = true ∧ surrounded (applyReplacements w) i = true := by
        simpa using hcond
      have hc' : c = '0' := by simpa using hceq
      subst hc'
      -- trace the '0' back through both passes
      have h1 := h
      unfold applyReplacements at h1
      obtain ⟨d, hd, hfd⟩ := substitute_getElem?_some h1
      have hd0 : d = '0' := by
        by_cases hb : (d == '1' && surrounded (substitute '0' 'O' w) i) = true
        · rw [if_pos hb] at hfd; exact absurd hfd (by decide)
        · rwa [if_neg hb] at hfd
      subst hd0
      obtain ⟨e, he, hfe⟩ := substitute_getElem?_some hd
      have he0 : e = '0' ∧ surrounded w i = false := by
        by_cases hb : (e == '0' && surrounded w i) = true
        · rw [if_pos hb] at hfe; exact absurd hfe (by decide)
        · rw [if_neg hb] at hfe
          subst hfe
          refine ⟨rfl, ?_⟩
          have : ¬((true && surrounded w i) = true) := by
            simpa using hb
          simpa using this
      obtain ⟨he0', hwsur⟩ := he0
      subst he0'
      -- the '0' is a non-letter at index i in all three strings
      have hmid_u : lA (substitute '0' 'O' w) i = false := by
        rw [lA_of_getElem? hd]; decide
      have hmid_w : lA w i = false := by
        rw [lA_of_getElem? he]; decide
      have hsur_u : surrounded (substitute '1' 'l' (substitute '0' 'O' w)) i
          = surrounded (substitute '0' 'O' w) i :=
        surrounded_substitute '1' 'l' (by decide) (by decide) _ i hmid_u
      have hsur_w : surrounded (substitute '0' 'O' w) i = surrounded w i :=
        surrounded_substitute '0' 'O' (by decide) (by decide) _ i hmid_w
      unfold applyReplacements at hsur
      rw [hsur_u, hsur_w, hwsur] at hsur
      exact absurd hsur (by simp)
    · rw [if_neg hcond]

lemma substitute1_applyReplacements (w : List Char) :
    substitute '1' 'l' (applyReplacements w) = applyReplacements w := by
  apply List.ext_getElem?
  intro i
  rw [substitute_getElem?]
  cases h : (applyReplacements w)[i]? with
  | none => rfl
  | some c =>
    simp only [Option.map_some', Option.some.injEq]
    by_cases hcond : (c == '1' && surrounded (applyReplacements w) i) = true
    · exfalso
      obtain ⟨hceq, hsur⟩ : (c == '1') = true ∧ surrounded (applyReplacements w) i = true := by
        simpa using hcond
      have hc' : c = '1' := by simpa using hceq
      subst hc'
      have h1 := h
      unfold applyReplacements at h1
      obtain ⟨d, hd, hfd⟩ := substitute_getElem?_some h1
      have hd1 : d = '1' ∧ surrounded (substitute '0' 'O' w) i = false := by
        by_cases hb : (d == '1' && surrounded (substitute '0' 'O' w) i) = true
        · rw [if_pos hb] at hfd; exact absurd hfd (by decide)
        · rw [if_neg hb] at hfd
          subst hfd
          refine ⟨rfl, ?_⟩
          have : ¬((true && surrounded (substitute '0' 'O' w) i) = true) := by
            simpa using hb
          simpa using this
      obtain ⟨hd1', husur⟩ := hd1
      subst hd1'
      have hmid_u : lA (substitute '0' 'O' w) i = false := by
        rw [lA_of_getElem? hd]; decide
      have hsur_u : surrounded (substitute '1' 'l' (substitute '0' 'O' w)) i
          = surrounded (substitute '0' 'O' w) i :=
        surrounded_substitute '1' 'l' (by decide) (by decide) _ i hmid_u
      unfold applyReplacements at hsur
      rw [hsur_u, husur] at hsur
      exact absurd hsur (by simp)
    · rw [if_neg hcond]

lemma applyReplacements_idem (w : List Char) :
    applyReplacements (applyReplacements w) = applyReplacements w := by
  show substitute '1' 'l' (substitute '0' 'O' (applyReplacements w)) = applyReplacements w
  rw [substitute0_applyReplacements, substitute1_applyReplacements]

/-- Modelled from the spec: one simultaneous, positional pass that replaces
a character by `'O'` (for `'0'`) or `'l'` (for `'1'`) exactly at positions
strictly surrounded by ASCII letters on both sides, and leaves every other
position unchanged. -/
def specSubst (s : List Char) : List Char :=
  (List.range s.length).map (fun i =>
    match s[i]? with
    | none => ' '
    | some c =>
      if c == '0' && surrounded s i then 'O'
      else if c == '1' && surrounded s i then 'l' else c)

lemma specSubst_getElem? (s : List Char) (i : Nat) :
    (specSubst s)[i]? = (s[i]?).map (fun c =>
      if c == '0' && surrounded s i then 'O'
      else if c == '1' && surrounded s i then 'l' else c) := by
  unfold specSubst
  rw [List.getElem?_map]
  by_cases hi : i < s.length
  · rw [List.getElem?_range hi]
    have hsome : s[i]? = some s[i] := List.getElem?_eq_getElem hi
    simp only [Option.map_some']
    rw [hsome]
    rfl
  · have h1 : (List.range s.length)[i]? = none :=
      List.getElem?_eq_none (by simpa using Nat.le_of_not_lt hi)
    have h2 : s[i]? = none := List.getElem?_eq_none (Nat.le_of_not_lt hi)
    rw [h1, h2]
    rfl

/-- C4: the ambiguous-character substitution of `_clean_text` (lines 185-198)
replaces `'0'` by `'O'` and `'1'` by `'l'` exactly at characters strictly
surrounded by an alphabetic character on each side, and changes no other
character; in particular `"a0b"` becomes `"aOb"`, while `"10"` and `" 0 "`
are unchanged. -/
theorem claim_C4_ambiguous_substitution :
    (∀ s : List Char, applyReplacements s = specSubst s)
      ∧ applyReplacements "a0b".data = "aOb".data
      ∧ applyReplacements "10".data = "10".data
      ∧ applyReplacements " 0 ".data = " 0 ".data := by
  refine ⟨?_, by decide, by decide, by decide⟩
  intro s
  apply List.ext_getElem?
  intro i
  rw [applyReplacements_getElem?, specSubst_getElem?]

/-- C5: text normalization is idempotent. -/
theorem claim_C5_clean_text_idempotent :
    ∀ s : List Char, clean_text (clean_text s) = clean_text s := by
  intro s
  rw [clean_text_eq s, clean_text_eq (applyReplacements (collapseWS s)),
    collapseWS_applyReplacements_collapseWS s, applyReplacements_idem]

/-- C10: the hyphenated-line-break repair of lines 200-201 never changes the
string, because the whitespace collapse on line 183 already removed every
newline: `_clean_text` equals the same function with the repair step
deleted. -/
theorem claim_C10_repair_is_dead_code :
    ∀ s : List Char, clean_text s = clean_text_norepair s := by
  intro s
  rw [clean_text_eq s, clean_text_norepair_eq s]

/-! ### The per-image pipeline and batch aggregation -/

/-- One recognized line as delivered by the OCR engine: `line[1][0]` (text)
and `line[1][1]` (confidence in `[0,1]`, modelled exactly as a rational). -/
structure RecLine where
  text : List Char
  conf : ℚ
deriving DecidableEq

/-- The outcome of decoding, preprocessing and recognizing one image: either
the engine's line list, or the message of the exception that was raised. -/
abbrev EngineResult := Except (List Char) (List RecLine)

/-- The per-image record of lines 130-136 / 140-147. -/
structure ImageResult where
  filename : List Char
  text : List Char
  confidence : ℚ
  error : Option (List Char)
  character_count : Nat
  lines_detected : Nat
deriving DecidableEq

/-- Lines 116-124: keep a line only when `text and text.strip()` is truthy. -/
def keptLines (lines : List RecLine) : List RecLine :=
  lines.filter (fun l => !l.text.isEmpty && !(strip l.text).isEmpty)

/-- Lines 97-147: `OCRHandler._process_image`.  The fallible part of the body
(image decode, preprocessing, engine call, parsing) is abstracted as the
`EngineResult` argument; the `except` branch of lines 138-147 is the
`Except.error` case. -/
def process_image (filename : List Char) (engine : EngineResult) : ImageResult :=
  match engine with
  | .error e => ⟨filename, [], 0, some e, 0, 0⟩
  | .ok lines =>
    let text_parts := (keptLines lines).map (fun l => strip l.text)
    let confidences := (keptLines lines).map (fun l => l.conf)
    let combined_text := clean_text (List.intercalate [' '] text_parts)
    let average_confidence : ℚ :=
      if !confidences.isEmpty then confidences.sum / confidences.length else 0
    ⟨filename, combined_text, average_confidence * 100, none,
      combined_text.length, text_parts.length⟩

/-- Lines 281-339: the per-image loop of the `handler` variant.  Identical to
`_process_image` except line 320: `combined_text = " ".join(text_parts).strip()`
instead of `self._clean_text(" ".join(text_parts))`. -/
def handler_process_image (filename : List Char) (engine : EngineResult) : ImageResult :=
  match engine with
  | .error e => ⟨filename, [], 0, some e, 0, 0⟩
  | .ok lines =>
    let text_parts := (keptLines lines).map (fun l => strip l.text)
    let confidences := (keptLines lines).map (fun l => l.conf)
    let combined_text := strip (List.intercalate [' '] text_parts)
    let average_confidence : ℚ :=
      if !confidences.isEmpty then confidences.sum / confidences.length else 0
    ⟨filename, combined_text, average_confidence * 100, none,
      combined_text.length, text_parts.length⟩

/-- The response payload of lines 83-89. -/
structure BatchResult where
  success : Bool
  images : List ImageResult
  combined_text : List Char
  total_confidence : ℚ
  image_count : Nat
deriving DecidableEq

/-- Lines 79-89: combine per-image results (only reached when `results` is
non-empty). -/
def mkBatchResult (results : List ImageResult) : BatchResult :=
  ⟨true,
   results,
   List.intercalate ['\n', '\n']
     ((results.filter (fun r => !(strip r.text).isEmpty)).map (fun r => r.text)),
   (results.map (fun r => r.confidence)).sum / (results.length : ℚ),
   results.length⟩

deriving instance DecidableEq for Except

/-- One parsed multipart form field: its name, its filename (empty models a
falsy `field.filename`) and the processing outcome of its payload. -/
structure FormField where
  name : List Char
  filename : List Char
  content : EngineResult
deriving DecidableEq

/-- The outcome of `do_POST`: a JSON error response with an HTTP status, or
the success payload. -/
inductive PostOutcome
  | err (status : Nat) (message : List Char)
  | ok (b : BatchResult)
deriving DecidableEq

/-- Lines 61-73: the fields processed by the upload loop — those whose name
starts with `"image"` and whose filename is truthy. -/
def validFields (form : List FormField) : List FormField :=
  form.filter (fun f => List.isPrefixOf "image".data f.name && !f.filename.isEmpty)

/-- Lines 57-91: the core of `OCRHandler.do_POST` after multipart parsing:
process each valid upload, reject with HTTP 400 when none was found,
otherwise aggregate. -/
def do_POST (form : List FormField) : PostOutcome :=
  let results := (validFields form).map (fun f => process_image f.filename f.content)
  if results.isEmpty then .err 400 "No valid images found in request".data
  else .ok (mkBatchResult results)

/-! ### Claims about the pipeline -/

/-- C1: the per-image `confidence` is the arithmetic mean of the confidences
of the kept (non-empty) recognized lines multiplied by 100, and 0 when no
line was kept. -/
theorem claim_C1_image_confidence (filename : List Char) (lines : List RecLine) :
    ((keptLines lines).isEmpty = true →
        (process_image filename (Except.ok lines)).confidence = 0)
      ∧ ((keptLines lines).isEmpty = false →
        (process_image filename (Except.ok lines)).confidence
          = ((keptLines lines).map (fun l => l.conf)).sum
              / (((keptLines lines).map (fun l => l.conf)).length : ℚ) * 100) := by
  constructor
  · intro h
    have hm : ((keptLines lines).map (fun l => l.conf)).isEmpty = true := by
      rw [List.isEmpty_iff] at h ⊢
      simp [h]
    simp [process_image, hm]
  · intro h
    have hm : ((keptLines lines).map (fun l => l.conf)).isEmpty = false := by
      rw [List.isEmpty_eq_false_iff_exists_mem] at h ⊢
      obtain ⟨l, hl⟩ := h
      exact ⟨l.conf, List.mem_map_of_mem _ hl⟩
    simp [process_image, hm]

def demoLines1 : List RecLine := [⟨"hello".data, 0.9⟩, ⟨"world".data, 0.8⟩]

def demoLines2 : List RecLine := [⟨"ninety".data, 0.95⟩]

/-- C1 witness: line confidences `[0.9, 0.8]` give per-image confidence 85
and `[0.95]` gives 95. -/
theorem claim_C1_witness :
    (process_image "a.png".data (Except.ok demoLines1)).confidence = 85
      ∧ (process_image "b.png".data (Except.ok demoLines2)).confidence = 95 := by
  have h1 := (claim_C1_image_confidence "a.png".data demoLines1).2 (by decide)
  have h2 := (claim_C1_image_confidence "b.png".data demoLines2).2 (by decide)
  have hk1 : keptLines demoLines1 = demoLines1 := rfl
  have hk2 : keptLines demoLines2 = demoLines2 := rfl
  rw [hk1] at h1
  rw [hk2] at h2
  rw [h1, h2]
  norm_num [demoLines1, demoLines2]

/-- C2: for every batch built by `do_POST`, `total_confidence` is exactly the
arithmetic mean of all `images[].confidence`; failed entries are included
(and always carry confidence 0). -/
theorem claim_C2_total_confidence_mean (form : List FormField) (b : BatchResult)
    (h : do_POST form = PostOutcome.ok b) :
    b.total_confidence
        = (b.images.map (fun r => r.confidence)).sum / (b.images.length : ℚ)
      ∧ b.images.length = (validFields form).length
      ∧ b.images ≠ []
      ∧ ∀ r ∈ b.images, r.error ≠ none → r.confidence = 0 := by
  simp only [do_POST] at h
  by_cases he :
      ((validFields form).map (fun f => process_image f.filename f.content)).isEmpty
  · rw [if_pos he] at h
    exact absurd h (by simp)
  · rw [if_neg he] at h
    have hb : b = mkBatchResult
        ((validFields form).map (fun f => process_image f.filename f.content)) := by
      cases h
      rfl
    subst hb
    refine ⟨rfl, by simp [mkBatchResult], ?_, ?_⟩
    · show (validFields form).map (fun f => process_image f.filename f.content) ≠ []
      intro hnil
      rw [hnil] at he
      exact he rfl
    · intro r hr hre
      have hr' : r ∈ (validFields form).map (fun f => process_image f.filename f.content) := hr
      obtain ⟨f, _, rfl⟩ := List.mem_map.mp hr'
      cases hc : f.content with
      | error e => simp [process_image, hc]
      | ok lines =>
        exfalso
        apply hre
        simp [process_image, hc]

def demoForm2 : List FormField :=
  [⟨"image1".data, "a.png".data, Except.ok demoLines1⟩,
   ⟨"image2".data, "b.png".data, Except.ok demoLines2⟩]

/-- Per-image confidence formula, read off the definition. -/
lemma process_image_confidence_ok (filename : List Char) (lines : List RecLine) :
    (process_image filename (Except.ok lines)).confidence
      = (if !((keptLines lines).map (fun l => l.conf)).isEmpty
          then ((keptLines lines).map (fun l => l.conf)).sum
            / (((keptLines lines).map (fun l => l.conf)).length : ℚ)
          else 0) * 100 := rfl

/-- C2 witness: per-image confidences 85 and 95 give `total_confidence` 90. -/
theorem claim_C2_witness :
    (mkBatchResult ((validFields demoForm2).map
        (fun f => process_image f.filename f.content))).total_confidence = 90 := by
  have hdo : do_POST demoForm2 = PostOutcome.ok (mkBatchResult
      ((validFields demoForm2).map (fun f => process_image f.filename f.content))) := rfl
  have h := claim_C2_total_confidence_mean demoForm2 _ hdo
  rw [h.1]
  have himg : (mkBatchResult ((validFields demoForm2).map
      (fun f => process_image f.filename f.content))).images
      = [process_image "a.png".data (Except.ok demoLines1),
         process_image "b.png".data (Except.ok demoLines2)] := rfl
  rw [himg]
  have hc1 : (process_image "a.png".data (Except.ok demoLines1)).confidence = 85 := by
    rw [process_image_confidence_ok, show keptLines demoLines1 = demoLines1 from rfl]
    norm_num [demoLines1]
  have hc2 : (process_image "b.png".data (Except.ok demoLines2)).confidence = 95 := by
    rw [process_image_confidence_ok, show keptLines demoLines2 = demoLines2 from rfl]
    norm_num [demoLines2]
  simp only [List.map_cons, List.map_nil, List.sum_cons, List.sum_nil,
    List.length_cons, List.length_nil, hc1, hc2]
  norm_num

/-- C3: a per-image failure yields exactly the record
`{filename, text: "", confidence: 0, error, character_count: 0,
lines_detected: 0}`, the other images are still processed, and the batch has
one record per valid submitted image. -/
theorem claim_C3_per_image_failure_isolated (form : List FormField) (b : BatchResult)
    (h : do_POST form = PostOutcome.ok b) :
    b.images = (validFields form).map (fun f => process_image f.filename f.content)
      ∧ b.image_count = (validFields form).length
      ∧ ∀ fn e : List Char,
          process_image fn (Except.error e) = ⟨fn, [], 0, some e, 0, 0⟩ := by
  simp only [do_POST] at h
  by_cases he :
      ((validFields form).map (fun f => process_image f.filename f.content)).isEmpty
  · rw [if_pos he] at h
    exact absurd h (by simp)
  · rw [if_neg he] at h
    have hb : b = mkBatchResult
        ((validFields form).map (fun f => process_image f.filename f.content)) := by
      cases h
      rfl
    subst hb
    exact ⟨rfl, by simp [mkBatchResult], fun fn e => rfl⟩

def demoForm3 : List FormField :=
  [⟨"image1".data, "a.png".data, Except.ok [⟨"Hello".data, 0.9⟩]⟩,
   ⟨"image2".data, "b.png".data, Except.error "decode failed".data⟩,
   ⟨"image3".data, "c.png".data, Except.ok [⟨"World".data, 0.8⟩]⟩]

/-- C3 witness: one failure among three images still yields three records,
with exactly one record carrying a non-null error, and that record is the
exact failure record. -/
theorem claim_C3_witness :
    ((validFields demoForm3).map (fun f => process_image f.filename f.content)).length = 3
      ∧ (((validFields demoForm3).map (fun f => process_image f.filename f.content)).filter
          (fun r => r.error != none)).length = 1
      ∧ process_image "b.png".data (Except.error "decode failed".data)
          = ⟨"b.png".data, [], 0, some "decode failed".data, 0, 0⟩ := by
  have hdo : do_POST demoForm3 = PostOutcome.ok (mkBatchResult
      ((validFields demoForm3).map (fun f => process_image f.filename f.content))) := rfl
  have h := claim_C3_per_image_failure_isolated demoForm3 _ hdo
  exact ⟨by decide, by decide, h.2.2 "b.png".data "decode failed".data⟩

def demoLinesC6 : List RecLine := [⟨"a0b".data, 0.9⟩]

/-- C6 counterexample: with identical per-image engine output, the two entry
points produce different records — the class pipeline normalizes `"a0b"` to
`"aOb"` while the handler loop leaves it as `"a0b"`. -/
theorem claim_C6_counterexample :
    process_image "x.png".data (Except.ok demoLinesC6)
      ≠ handler_process_image "x.png".data (Except.ok demoLinesC6) := by
  intro h
  have ht : (process_image "x.png".data (Except.ok demoLinesC6)).text
      = (handler_process_image "x.png".data (Except.ok demoLinesC6)).text := by
    rw [h]
  have : ("aOb".data : List Char) = "a0b".data := ht
  exact absurd this (by decide)

/-- C6 amended: for identical engine output the two entry points agree on
filename, confidence, lines_detected and error; the full records (text and
character_count included) coincide exactly when `_clean_text` agrees with
plain stripping on the joined line text. -/
theorem claim_C6_amended (filename : List Char) (engine : EngineResult) :
    (process_image filename engine).filename
        = (handler_process_image filename engine).filename
      ∧ (process_image filename engine).confidence
        = (handler_process_image filename engine).confidence
      ∧ (process_image filename engine).lines_detected
        = (handler_process_image filename engine).lines_detected
      ∧ (process_image filename engine).error
        = (handler_process_image filename engine).error
      ∧ ∀ lines, engine = Except.ok lines →
          clean_text (List.intercalate [' ']
              ((keptLines lines).map (fun l => strip l.text)))
            = strip (List.intercalate [' ']
              ((keptLines lines).map (fun l => strip l.text))) →
          process_image filename engine = handler_process_image filename engine := by
  cases engine with
  | error e =>
    refine ⟨rfl, rfl, rfl, rfl, ?_⟩
    intro lines hl
    exact absurd hl (by simp)
  | ok lines0 =>
    refine ⟨rfl, rfl, rfl, rfl, ?_⟩
    intro lines hl htext
    have : lines0 = lines := by
      injection hl
    subst this
    show (⟨filename,
        clean_text (List.intercalate [' '] ((keptLines lines0).map (fun l => strip l.text))),
        _, none,
        (clean_text (List.intercalate [' '] ((keptLines lines0).map (fun l => strip l.text)))).length,
        _⟩ : ImageResult) = ⟨filename, _, _, none, _, _⟩
    rw [htext]

/-- C6 witness for the amended claim: when normalization does nothing, the
two records are identical. -/
theorem claim_C6_witness :
    process_image "w.png".data (Except.ok [⟨"hi".data, (0.9 : ℚ)⟩])
      = handler_process_image "w.png".data (Except.ok [⟨"hi".data, (0.9 : ℚ)⟩]) :=
  (claim_C6_amended "w.png".data (Except.ok [⟨"hi".data, (0.9 : ℚ)⟩])).2.2.2.2
    [⟨"hi".data, (0.9 : ℚ)⟩] rfl (by decide)

/-- C8: when zero valid image files are found, `do_POST` answers with the
client error 400 and never constructs a `BatchResult`. -/
theorem claim_C8_empty_rejected (form : List FormField)
    (h : validFields form = []) :
    do_POST form = PostOutcome.err 400 "No valid images found in request".data
      ∧ ∀ b : BatchResult, do_POST form ≠ PostOutcome.ok b := by
  have hres : (validFields form).map (fun f => process_image f.filename f.content) = [] := by
    rw [h]; rfl
  constructor
  · simp only [do_POST, hres]
    rfl
  · intro b hb
    simp only [do_POST, hres] at hb
    exact absurd hb (by simp)

def demoFormBad : List FormField :=
  [⟨"file1".data, "a.png".data, Except.ok []⟩,
   ⟨"image2".data, [], Except.ok []⟩]

/-- C8 witness: a form with no field both named `image*` and carrying a
filename is rejected with status 400. -/
theorem claim_C8_witness :
    do_POST demoFormBad = PostOutcome.err 400 "No valid images found in request".data :=
  (claim_C8_empty_rejected demoFormBad (by decide)).1

/-! ### The image preprocessor -/

/-- Lines 149-175: `OCRHandler._preprocess_image`.  The four PIL operations
(RGB conversion, resize, contrast enhancement, sharpness enhancement) are
abstracted as fallible steps; the single `try`/`except` of the source means
that an exception at any step returns the value the `image` variable held at
that moment — the image as it existed immediately before the failing step. -/
def preprocess_image {Img Err : Type}
    (convertStep resizeStep contrastStep sharpenStep : Img → Except Err Img)
    (image : Img) : Img :=
  match convertStep image with
  | .error _ => image
  | .ok i1 =>
    match resizeStep i1 with
    | .error _ => i1
    | .ok i2 =>
      match contrastStep i2 with
      | .error _ => i2
      | .ok i3 =>
        match sharpenStep i3 with
        | .error _ => i3
        | .ok i4 => i4

/-- A chain of fallible steps with the catch-and-return-current-value policy
of the preprocessor. -/
def runSteps {Img Err : Type} : List (Img → Except Err Img) → Img → Img
  | [], image => image
  | step :: rest, image =>
    match step image with
    | .error _ => image
    | .ok i => runSteps rest i

/-- A chain of steps that succeeds only if every step succeeds. -/
def runOk {Img Err : Type} : List (Img → Except Err Img) → Img → Option Img
  | [], image => some image
  | step :: rest, image =>
    match step image with
    | .error _ => none
    | .ok i => runOk rest i

/-- C7: the preprocessor is the catch-and-continue fold of its four steps,
and whenever a prefix of steps succeeds and the next step throws, the result
is exactly the image produced by that prefix — the error never propagates
(the preprocessor is a total function into `Img`). -/
theorem claim_C7_preprocess_best_effort {Img Err : Type}
    (convertStep resizeStep contrastStep sharpenStep : Img → Except Err Img) :
    (∀ image, preprocess_image convertStep resizeStep contrastStep sharpenStep image
        = runSteps [convertStep, resizeStep, contrastStep, sharpenStep] image)
      ∧ ∀ (pre post : List (Img → Except Err Img)) (step : Img → Except Err Img)
          (image i : Img) (e : Err),
          runOk pre image = some i → step i = Except.error e →
          runSteps (pre ++ step :: post) image = i := by
  constructor
  · intro image
    cases h1 : convertStep image with
    | error e => simp [preprocess_image, runSteps, h1]
    | ok i1 =>
      cases h2 : resizeStep i1 with
      | error e => simp [preprocess_image, runSteps, h1, h2]
      | ok i2 =>
        cases h3 : contrastStep i2 with
        | error e => simp [preprocess_image, runSteps, h1, h2, h3]
        | ok i3 =>
          cases h4 : sharpenStep i3 with
          | error e => simp [preprocess_image, runSteps, h1, h2, h3, h4]
          | ok i4 => simp [preprocess_image, runSteps, h1, h2, h3, h4]
  · intro pre
    induction pre with
    | nil =>
      intro post step image i e hok hstep
      have hi : image = i := by
        have : some image = some i := hok
        injection this
      subst hi
      show (match step image with
        | .error _ => image
        | .ok j => runSteps post j) = image
      rw [hstep]
    | cons s rest ih =>
      intro post step image i e hok hstep
      cases hs : s image with
      | error e' =>
        exfalso
        have : (none : Option Img) = some i := by
          rw [show runOk (s :: rest) image = none by simp [runOk, hs]] at hok
          exact hok
        injection this
      | ok j =>
        have hrest : runOk rest j = some i := by
          rw [show runOk (s :: rest) image = runOk rest j by simp [runOk, hs]] at hok
          exact hok
        show (match s image with
          | .error _ => image
          | .ok j => runSteps (rest ++ step :: post) j) = i
        rw [hs]
        exact ih post step j i e hrest hstep

def demoConvert : Nat → Except (List Char) Nat := fun n => Except.ok (n + 1)

def demoResize : Nat → Except (List Char) Nat := fun _ => Except.error "resize failed".data

def demoContrast : Nat → Except (List Char) Nat := fun n => Except.ok (n * 2)

def demoSharpen : Nat → Except (List Char) Nat := fun n => Except.ok (n + 10)

/-- C7 witness: with a failing resize step, the preprocessor returns the
converted image (the value from just before the failing step), and the error
is not propagated. -/
theorem claim_C7_witness :
    preprocess_image demoConvert demoResize demoContrast demoSharpen 5 = 6 := by
  have h := claim_C7_preprocess_best_effort demoConvert demoResize demoContrast demoSharpen
  rw [h.1 5]
  exact h.2 [demoConvert] [demoContrast, demoSharpen] demoResize 5 6
    "resize failed".data rfl rfl

/-! ### The resize rule -/

/-- Line 157 / 289: `max_size = 2048`. -/
def max_size : Nat := 2048

/-- A PIL image size (`image.size`). -/
structure PILSize where
  width : Nat
  height : Nat
deriving DecidableEq

/-- Lines 156-161 (and 288-293): the resize rule applied to the image size.
`ratio = max_size / max(image.size)` and
`new_size = tuple(int(dim * ratio) for dim in image.size)`; Python `int()` on
a nonnegative value truncates, i.e. takes the floor. -/
def resize_size (sz : PILSize) : PILSize :=
  if max_size < max sz.width sz.height then
    let scale : ℚ := (max_size : ℚ) / ((max sz.width sz.height : Nat) : ℚ)
    ⟨(⌊(sz.width : ℚ) * scale⌋).toNat, (⌊(sz.height : ℚ) * scale⌋).toNat⟩
  else sz

lemma floor_scale_cast (d L : Nat) (hL : 0 < L) :
    (((⌊(d : ℚ) * ((max_size : ℚ) / (L : ℚ))⌋).toNat : Nat) : ℚ)
      = ((⌊(d : ℚ) * ((max_size : ℚ) / (L : ℚ))⌋ : ℤ) : ℚ) := by
  have hx : (0 : ℚ) ≤ (d : ℚ) * ((max_size : ℚ) / (L : ℚ)) := by positivity
  have hfl : 0 ≤ ⌊(d : ℚ) * ((max_size : ℚ) / (L : ℚ))⌋ := Int.floor_nonneg.mpr hx
  have h := Int.toNat_of_nonneg hfl
  exact_mod_cast congrArg (fun z : ℤ => (z : ℚ)) h

lemma floor_scale_eq (L : Nat) (hL : 0 < L) :
    (⌊(L : ℚ) * ((max_size : ℚ) / (L : ℚ))⌋).toNat = max_size := by
  have hLQ : ((L : Nat) : ℚ) ≠ 0 := by
    have : L ≠ 0 := Nat.pos_iff_ne_zero.mp hL
    exact_mod_cast this
  rw [mul_comm, div_mul_cancel₀ (max_size : ℚ) hLQ]
  rw [show ((max_size : Nat) : ℚ) = ((max_size : ℤ) : ℚ) by push_cast; rfl]
  rw [Int.floor_intCast]
  simp [max_size]

lemma floor_scale_le (d L : Nat) (hd : d ≤ L) (hL : 0 < L) :
    (⌊(d : ℚ) * ((max_size : ℚ) / (L : ℚ))⌋).toNat ≤ max_size := by
  have hLQ : (0 : ℚ) < (L : ℚ) := by exact_mod_cast hL
  have hmul : (d : ℚ) * ((max_size : ℚ) / (L : ℚ))
      ≤ (L : ℚ) * ((max_size : ℚ) / (L : ℚ)) := by
    apply mul_le_mul_of_nonneg_right
    · exact_mod_cast hd
    · positivity
  have hLQne : ((L : Nat) : ℚ) ≠ 0 := ne_of_gt hLQ
  rw [mul_comm (L : ℚ), div_mul_cancel₀ (max_size : ℚ) hLQne] at hmul
  have hfloor : ⌊(d : ℚ) * ((max_size : ℚ) / (L : ℚ))⌋ ≤ (max_size : ℤ) := by
    have := Int.floor_le_floor hmul
    rwa [show ⌊((max_size : Nat) : ℚ)⌋ = (max_size : ℤ) by
      rw [show ((max_size : Nat) : ℚ) = ((max_size : ℤ) : ℚ) by push_cast; rfl,
        Int.floor_intCast]] at this
  exact Int.toNat_le.mpr hfloor

/-- C9: when the longer dimension exceeds 2048, both dimensions are scaled by
`2048 / longer` with integer truncation; the longer side becomes exactly 2048
and each scaled dimension is within one pixel of the exact scaled value. -/
theorem claim_C9_resize (sz : PILSize) (h : max_size < max sz.width sz.height) :
    (resize_size sz).width
        = (⌊(sz.width : ℚ) * ((max_size : ℚ) / ((max sz.width sz.height : Nat) : ℚ))⌋).toNat
      ∧ (resize_size sz).height
        = (⌊(sz.height : ℚ) * ((max_size : ℚ) / ((max sz.width sz.height : Nat) : ℚ))⌋).toNat
      ∧ max (resize_size sz).width (resize_size sz).height = max_size
      ∧ ((resize_size sz).width : ℚ)
          ≤ (sz.width : ℚ) * ((max_size : ℚ) / ((max sz.width sz.height : Nat) : ℚ))
      ∧ (sz.width : ℚ) * ((max_size : ℚ) / ((max sz.width sz.height : Nat) : ℚ)) - 1
          < ((resize_size sz).width : ℚ)
      ∧ ((resize_size sz).height : ℚ)
          ≤ (sz.height : ℚ) * ((max_size : ℚ) / ((max sz.width sz.height : Nat) : ℚ))
      ∧ (sz.height : ℚ) * ((max_size : ℚ) / ((max sz.width sz.height : Nat) : ℚ)) - 1
          < ((resize_size sz).height : ℚ) := by
  have hL : 0 < max sz.width sz.height := lt_trans (by norm_num [max_size]) h
  have hw : (resize_size sz).width
      = (⌊(sz.width : ℚ) * ((max_size : ℚ) / ((max sz.width sz.height : Nat) : ℚ))⌋).toNat := by
    simp only [resize_size, if_pos h]
  have hh : (resize_size sz).height
      = (⌊(sz.height : ℚ) * ((max_size : ℚ) / ((max sz.width sz.height : Nat) : ℚ))⌋).toNat := by
    simp only [resize_size, if_pos h]
  refine ⟨hw, hh, ?_, ?_, ?_, ?_, ?_⟩
  · rcases Nat.le_total sz.height sz.width with hcase | hcase
    · have hmax : max sz.width sz.height = sz.width := Nat.max_eq_left hcase
      rw [hw, hh, hmax]
      rw [floor_scale_eq sz.width (by omega)]
      exact Nat.max_eq_left (floor_scale_le sz.height sz.width hcase (by omega))
    · have hmax : max sz.width sz.height = sz.height := Nat.max_eq_right hcase
      rw [hw, hh, hmax]
      rw [floor_scale_eq sz.height (by omega)]
      exact Nat.max_eq_right (floor_scale_le sz.width sz.height hcase (by omega))
  · rw [hw, floor_scale_cast sz.width _ hL]
    exact Int.floor_le _
  · rw [hw, floor_scale_cast sz.width _ hL]
    have := Int.lt_floor_add_one
      ((sz.width : ℚ) * ((max_size : ℚ) / ((max sz.width sz.height : Nat) : ℚ)))
    linarith
  · rw [hh, floor_scale_cast sz.height _ hL]
    exact Int.floor_le _
  · rw [hh, floor_scale_cast sz.height _ hL]
    have := Int.lt_floor_add_one
      ((sz.height : ℚ) * ((max_size : ℚ) / ((max sz.width sz.height : Nat) : ℚ)))
    linarith

/-- C9 witness: a 4096 × 3000 image is resized to 2048 × 1500 — the longer
side becomes exactly 2048. -/
theorem claim_C9_witness :
    (resize_size ⟨4096, 3000⟩).width = 2048
      ∧ (resize_size ⟨4096, 3000⟩).height = 1500
      ∧ max (resize_size ⟨4096, 3000⟩).width (resize_size ⟨4096, 3000⟩).height = 2048 := by
  have h := claim_C9_resize ⟨4096, 3000⟩ (by norm_num [max_size])
  refine ⟨?_, ?_, h.2.2.1⟩
  · rw [h.1]
    exact floor_scale_eq 4096 (by norm_num)
  · rw [h.2.1]
    show (⌊((3000 : Nat) : ℚ) * ((max_size : ℚ) / ((4096 : Nat) : ℚ))⌋).toNat = 1500
    rw [show ((3000 : Nat) : ℚ) * ((max_size : ℚ) / ((4096 : Nat) : ℚ)) = ((1500 : ℤ) : ℚ) by
      push_cast [max_size]; norm_num]
    rw [Int.floor_intCast]
    rfl
